import Mathlib

/-!
Verification of the SQL statement splitter in `sql/migrate/lex.go`.

The Go code scans a UTF-8 byte string one code point at a time.  We embed it
at the byte level: a string is a `List Nat` of byte values, positions and
widths are byte offsets exactly as in Go, and `decodeRune` transcribes
`utf8.DecodeRuneInString` (invalid or truncated encodings give the
replacement rune 0xFFFD with width 1).  All loops of the source terminate
because the cursor strictly advances, so each loop is written as structural
recursion on a fuel argument, with a wrapper supplying the sufficient fuel
`length - pos + 1`; the artificial `Err.noFuel` result is unreachable for
the supplied fuel and appears in no theorem.  The outer `stmts` loop of the
source does not terminate on some inputs, so it keeps an explicit fuel
parameter and `none` means the loop is still running after that many
iterations.
-/

namespace AtlasLex

/-- Rune value returned by `next` at end of input (`eos = -1` in the source). -/
def eos : Int := -1

/-- Continuation byte test: `0x80 ≤ b ≤ 0xBF`. -/
def isCont (b : Nat) : Bool := decide (0x80 ≤ b ∧ b ≤ 0xBF)

/-- Go `utf8.RuneStart`: every byte that is not a continuation byte. -/
def runeStart (b : Nat) : Bool := !(isCont b)

/-- Second-byte acceptance ranges for three-byte sequences
(Go `utf8` acceptRanges). -/
def accept3 (b0 b1 : Nat) : Bool :=
  if b0 = 0xE0 then decide (0xA0 ≤ b1 ∧ b1 ≤ 0xBF)
  else if b0 = 0xED then decide (0x80 ≤ b1 ∧ b1 ≤ 0x9F)
  else isCont b1

/-- Second-byte acceptance ranges for four-byte sequences. -/
def accept4 (b0 b1 : Nat) : Bool :=
  if b0 = 0xF0 then decide (0x90 ≤ b1 ∧ b1 ≤ 0xBF)
  else if b0 = 0xF4 then decide (0x80 ≤ b1 ∧ b1 ≤ 0x8F)
  else isCont b1

/-- Go `utf8.DecodeRuneInString` on a byte list: returns the first code
point and its byte width; the empty list gives width 0 and any invalid or
truncated encoding gives the replacement rune 0xFFFD with width 1. -/
def decodeRune : List Nat → Int × Nat
  | [] => (0xFFFD, 0)
  | b0 :: rest =>
    if b0 < 0x80 then ((b0 : Int), 1)
    else if b0 < 0xC2 then (0xFFFD, 1)
    else if b0 ≤ 0xDF then
      match rest with
      | b1 :: _ =>
        if isCont b1 then (((b0 - 0xC0) * 64 + (b1 - 0x80) : Nat), 2)
        else (0xFFFD, 1)
      | [] => (0xFFFD, 1)
    else if b0 ≤ 0xEF then
      match rest with
      | b1 :: b2 :: _ =>
        if accept3 b0 b1 && isCont b2 then
          (((b0 - 0xE0) * 4096 + (b1 - 0x80) * 64 + (b2 - 0x80) : Nat), 3)
        else (0xFFFD, 1)
      | _ => (0xFFFD, 1)
    else if b0 ≤ 0xF4 then
      match rest with
      | b1 :: b2 :: b3 :: _ =>
        if accept4 b0 b1 && isCont b2 && isCont b3 then
          (((b0 - 0xF0) * 262144 + (b1 - 0x80) * 4096 + (b2 - 0x80) * 64
            + (b3 - 0x80) : Nat), 4)
        else (0xFFFD, 1)
      | _ => (0xFFFD, 1)
    else (0xFFFD, 1)

/-- Candidate indices scanned backwards by Go `utf8.DecodeLastRuneInString`
for a rune start byte: from `length - 2` down to `max (length - 4) 0`. -/
def candList (e : Nat) : List Nat :=
  if e < 2 then []
  else if e = 2 then [0]
  else if e = 3 then [1, 0]
  else [e - 2, e - 3, e - 4]

/-- First index in the candidate list whose byte is a rune start byte. -/
def firstRuneStart (s : List Nat) : List Nat → Option Nat
  | [] => none
  | k :: ks => if runeStart (s.getD k 0) then some k else firstRuneStart s ks

/-- Go `utf8.DecodeLastRuneInString`: decode the final code point of a byte
list, scanning back at most four bytes for a start byte and re-checking
that the forward decode ends exactly at the end of the list. -/
def decodeLastRune (s : List Nat) : Int × Nat :=
  let e := s.length
  if e = 0 then (0xFFFD, 0)
  else if s.getD (e - 1) 0 < 0x80 then ((s.getD (e - 1) 0 : Int), 1)
  else
    match firstRuneStart s (candList e) with
    | some st =>
      let d := decodeRune (s.drop st)
      if st + d.2 = e then d else (0xFFFD, 1)
    | none =>
      if e - 4 = 0 then
        let d := decodeRune s
        if d.2 = e then d else (0xFFFD, 1)
      else (0xFFFD, 1)

/-- Go `unicode.IsSpace` on a code point (the White_Space property). -/
def isSpace (r : Int) : Bool :=
  decide (r = 9 ∨ r = 10 ∨ r = 11 ∨ r = 12 ∨ r = 13 ∨ r = 32 ∨
    r = 0x85 ∨ r = 0xA0 ∨ r = 0x1680 ∨ (0x2000 ≤ r ∧ r ≤ 0x200A) ∨
    r = 0x2028 ∨ r = 0x2029 ∨ r = 0x202F ∨ r = 0x205F ∨ r = 0x3000)

/-- Strip leading whitespace code points (fuel-indexed). -/
def trimLeftF : Nat → List Nat → List Nat
  | 0, s => s
  | n + 1, s =>
    if (decodeRune s).2 = 0 then s
    else if isSpace (decodeRune s).1 then trimLeftF n (s.drop (decodeRune s).2)
    else s

/-- Strip trailing whitespace code points (fuel-indexed). -/
def trimRightF : Nat → List Nat → List Nat
  | 0, s => s
  | n + 1, s =>
    if (decodeLastRune s).2 = 0 then s
    else if isSpace (decodeLastRune s).1 then
      trimRightF n (s.take (s.length - (decodeLastRune s).2))
    else s

/-- Go `strings.TrimSpace`: whitespace stripped from both ends. -/
def trimSpace (s : List Nat) : List Nat :=
  trimRightF s.length (trimLeftF s.length s)

/-- Go `strings.Index` for byte lists: first byte offset at which `sub`
occurs in `s`, or `none` (the source's `-1`). -/
def indexOfSub : List Nat → List Nat → Option Nat
  | [], sub => if sub.isPrefixOf ([] : List Nat) then some 0 else none
  | a :: t, sub =>
    if sub.isPrefixOf (a :: t) then some 0
    else (indexOfSub t sub).map (fun n => n + 1)

/-- UTF-8 encoding of one code point. -/
def utf8Enc (c : Nat) : List Nat :=
  if c < 0x80 then [c]
  else if c < 0x800 then [0xC0 + c / 64, 0x80 + c % 64]
  else if c < 0x10000 then
    [0xE0 + c / 4096, 0x80 + c / 64 % 64, 0x80 + c % 64]
  else
    [0xF0 + c / 262144, 0x80 + c / 4096 % 64, 0x80 + c / 64 % 64,
     0x80 + c % 64]

/-- Byte list of a string literal (UTF-8 encoding), used to write concrete
inputs. -/
def enc (s : String) : List Nat :=
  (s.toList.map (fun c => utf8Enc c.toNat)).flatten

/-- Errors of the splitter.  The constructors mirror the `errors.New` /
`fmt.Errorf` sites of the source; `noFuel` is a model artifact produced
only when a fuel wrapper is starved, which the supplied fuel never is. -/
inductive Err : Type
  | invalidDelimiter : Err
  | unclosedParens : Err
  | unexpectedCloseParen : Nat → Err
  | unclosedQuote : Int → Err
  | unclosedComment : Nat → Err
  | noFuel : Err
deriving DecidableEq, Repr

/-- Result of one `stmt` call: a statement, exhaustion (`io.EOF`), or an
error. -/
inductive Res : Type
  | stmt : List Nat → Res
  | eof : Res
  | err : Err → Res
deriving DecidableEq, Repr

/-- The scanner state (struct `lex` of the source). -/
structure Lex : Type where
  input : List Nat
  pos : Nat
  width : Nat
  start : Nat
  depth : Int
  delim : List Nat
deriving DecidableEq, Repr

/-- The delimiter directive marker (`delimComment` in the source). -/
def delimComment : List Nat := enc "//atlas:delimiter "

/-- `newLex`: trim the input, parse an optional delimiter directive, and
build the initial scanner state.  Note that the source applies
`strings.TrimSpace` a second time to the text after the marker before
looking for the newline. -/
def newLex (input : List Nat) : Except Err Lex :=
  if delimComment.isPrefixOf (trimSpace input) then
    match indexOfSub
        (trimSpace ((trimSpace input).drop delimComment.length)) [10] with
    | none => .error .invalidDelimiter
    | some i =>
      .ok { input :=
              (trimSpace ((trimSpace input).drop
                delimComment.length)).drop (i + 1),
            pos := 0, width := 0, start := 0, depth := 0,
            delim :=
              (trimSpace ((trimSpace input).drop
                delimComment.length)).take i }
  else
    .ok { input := trimSpace input, pos := 0, width := 0, start := 0,
          depth := 0, delim := [59] }

/-- `next`: read one code point, advancing `pos` and recording `width`;
at end of input it returns `eos` and leaves the state unchanged. -/
def next (l : Lex) : Int × Lex :=
  if l.input.length ≤ l.pos then (eos, l)
  else
    let d := decodeRune (l.input.drop l.pos)
    (d.1, { l with pos := l.pos + d.2, width := d.2 })

/-- `skipQuote` (fuel-indexed): consume code points until the closing quote,
a backslash escaping the following code point unconditionally. -/
def skipQuoteF : Nat → Int → Lex → Option Err × Lex
  | 0, _, l => (some .noFuel, l)
  | n + 1, q, l =>
    if (next l).1 = eos then (some (.unclosedQuote q), (next l).2)
    else if (next l).1 = 92 then skipQuoteF n q (next (next l).2).2
    else if (next l).1 = q then (none, (next l).2)
    else skipQuoteF n q (next l).2

/-- `skipQuote` with sufficient fuel. -/
def skipQuote (q : Int) (l : Lex) : Option Err × Lex :=
  skipQuoteF (l.input.length - l.pos + 1) q l

/-- The default (`HasPrefix`) case of the scanner dispatch: test whether the
delimiter begins at the start of the code point just consumed and, at
nesting depth 0, carve out `input[start:pos]`, set `start := pos - width`
and advance `pos` by the delimiter length (lines 97-103 of the source). -/
def stmtTail (l : Lex) : Lex ⊕ (Res × Lex) :=
  if l.delim.isPrefixOf (l.input.drop (l.pos - l.width)) then
    if l.depth = 0 then
      .inr (.stmt ((l.input.drop l.start).take (l.pos - l.start)),
        { l with start := l.pos - l.width, pos := l.pos + l.delim.length })
    else .inl l
  else .inl l

/-- One iteration of the `stmt` loop: read a code point and dispatch in the
source's case order (end of input, parens, quotes, the two comment forms
with their consumed lookahead, then the delimiter test).  `.inl` continues
the loop, `.inr` returns. -/
def stmtStep (l : Lex) : Lex ⊕ (Res × Lex) :=
  if (next l).1 = eos then
    if 0 < ((next l).2).depth then .inr (.err .unclosedParens, (next l).2)
    else if ((next l).2).start < ((next l).2).pos then
      .inr (.stmt (((next l).2).input.drop ((next l).2).start), (next l).2)
    else .inr (.eof, (next l).2)
  else if (next l).1 = 40 then
    .inl { (next l).2 with depth := ((next l).2).depth + 1 }
  else if (next l).1 = 41 then
    if ((next l).2).depth = 0 then
      .inr (.err (.unexpectedCloseParen ((next l).2).pos), (next l).2)
    else .inl { (next l).2 with depth := ((next l).2).depth - 1 }
  else if (next l).1 = 39 ∨ (next l).1 = 34 ∨ (next l).1 = 96 then
    match skipQuote (next l).1 (next l).2 with
    | (some e, l2) => .inr (.err e, l2)
    | (none, l2) => .inl l2
  else if (next l).1 = 45 ∧ (next (next l).2).1 = 45 then
    match indexOfSub
        (((next (next l).2).2).input.drop ((next (next l).2).2).pos) [10] with
    | some i =>
      .inl { (next (next l).2).2 with
             pos := ((next (next l).2).2).pos + i + 1 }
    | none => .inl (next (next l).2).2
  else if (next l).1 = 45 then stmtTail (next (next l).2).2
  else if (next l).1 = 47 ∧ (next (next l).2).1 = 42 then
    match indexOfSub
        (((next (next l).2).2).input.drop ((next (next l).2).2).pos)
        [42, 47] with
    | some i =>
      .inl { (next (next l).2).2 with
             pos := ((next (next l).2).2).pos + i + 2 }
    | none =>
      .inr (.err (.unclosedComment ((next (next l).2).2).pos),
        (next (next l).2).2)
  else if (next l).1 = 47 then stmtTail (next (next l).2).2
  else stmtTail (next l).2

/-- The `stmt` loop, fuel-indexed. -/
def stmtF : Nat → Lex → Res × Lex
  | 0, l => (.err .noFuel, l)
  | n + 1, l =>
    match stmtStep l with
    | .inl l2 => stmtF n l2
    | .inr r => r

/-- `stmt`: one call of the source's `stmt` method, with sufficient fuel
(every loop iteration that continues advances `pos` by at least one). -/
def stmt (l : Lex) : Res × Lex :=
  stmtF (l.input.length - l.pos + 1) l

/-- The collection loop of `stmts`, fuel-indexed on the number of `stmt`
calls; `none` means the loop has not finished within the given fuel. -/
def stmtsF : Nat → Lex → Option (Except Err (List (List Nat)))
  | 0, _ => none
  | n + 1, l =>
    match stmt l with
    | (.eof, _) => some (.ok [])
    | (.err e, _) => some (.error e)
    | (.stmt s, l2) => (stmtsF n l2).map (fun r => r.map (fun xs => s :: xs))

/-- `stmts`: split a whole input, with explicit fuel for the outer loop
(the source's loop runs until exhaustion or error, which for some inputs
never happens; `none` reports that the loop is still running). -/
def stmts (input : List Nat) (fuel : Nat) :
    Option (Except Err (List (List Nat))) :=
  match newLex input with
  | .error e => some (.error e)
  | .ok l => stmtsF fuel l

/-- State carried by a dispatch outcome, whether the loop continues or
returns. -/
def outState : Lex ⊕ (Res × Lex) → Lex
  | .inl a => a
  | .inr (_, a) => a

/-- One `stmt` call by another: `b` is the state left behind by running
`stmt` on `a`.  Reflexive-transitive chains of this relation are exactly
the states a splitter instance reaches between calls. -/
def steps (a b : Lex) : Prop := (stmt a).2 = b

/-- Bytes of the input `SELECT 'a;b'` (39 is the single-quote byte). -/
def exQuote : List Nat := enc "SELECT " ++ [39] ++ enc "a;b" ++ [39]

theorem next_depth (l : Lex) : ((next l).2).depth = l.depth := by
  unfold next
  split <;> rfl

theorem skipQuoteF_depth :
    ∀ (n : Nat) (q : Int) (l : Lex), ((skipQuoteF n q l).2).depth = l.depth := by
  intro n
  induction n with
  | zero => intro q l; rfl
  | succ n ih =>
    intro q l
    unfold skipQuoteF
    split_ifs with h1 h2 h3
    · exact next_depth l
    · rw [ih, next_depth, next_depth]
    · exact next_depth l
    · rw [ih, next_depth]

theorem skipQuote_depth (q : Int) (l : Lex) :
    ((skipQuote q l).2).depth = l.depth :=
  skipQuoteF_depth _ q l

theorem stmtTail_depth (l : Lex) : (outState (stmtTail l)).depth = l.depth := by
  unfold stmtTail
  split_ifs <;> rfl

theorem stmtStep_depth (l : Lex) (h : 0 ≤ l.depth) :
    0 ≤ (outState (stmtStep l)).depth := by
  have e1 : ((next l).2).depth = l.depth := next_depth l
  have e2 : ((next (next l).2).2).depth = l.depth := by
    rw [next_depth, e1]
  unfold stmtStep
  split_ifs with h1 h2 h3 h4 h5 h6 h7 h8 h9 h10
  · simp only [outState]; omega
  · simp only [outState]; omega
  · simp only [outState]; omega
  · simp only [outState]; omega
  · simp only [outState]; omega
  · simp only [outState]; omega
  · rcases hq : skipQuote (next l).1 (next l).2 with ⟨oe, l2⟩
    have hd : l2.depth = l.depth := by
      have := skipQuote_depth (next l).1 (next l).2
      rw [hq] at this
      rw [this, e1]
    cases oe <;> simp only [hq, outState] <;> omega
  · rcases hidx :
        indexOfSub (((next (next l).2).2).input.drop
          ((next (next l).2).2).pos) [10] with _ | i <;>
      simp only [hidx, outState] <;> omega
  · rw [stmtTail_depth]; omega
  · rcases hidx :
        indexOfSub (((next (next l).2).2).input.drop
          ((next (next l).2).2).pos) [42, 47] with _ | i <;>
      simp only [hidx, outState] <;> omega
  · rw [stmtTail_depth]; omega
  · rw [stmtTail_depth]; omega

theorem stmtF_depth :
    ∀ (n : Nat) (l : Lex), 0 ≤ l.depth → 0 ≤ ((stmtF n l).2).depth := by
  intro n
  induction n with
  | zero => intro l h; exact h
  | succ n ih =>
    intro l h
    unfold stmtF
    rcases hs : stmtStep l with l2 | p
    · have := stmtStep_depth l h
      rw [hs] at this
      exact ih l2 this
    · have := stmtStep_depth l h
      rw [hs] at this
      exact this

theorem stmt_depth (l : Lex) (h : 0 ≤ l.depth) : 0 ≤ ((stmt l).2).depth :=
  stmtF_depth _ l h

theorem newLex_depth {input : List Nat} {l0 : Lex}
    (h : newLex input = .ok l0) : l0.depth = 0 := by
  unfold newLex at h
  split_ifs at h
  · rcases hidx :
        indexOfSub (trimSpace ((trimSpace input).drop
          delimComment.length)) [10] with _ | i <;>
      rw [hidx] at h
    · exact absurd h (by simp)
    · injection h with h2
      rw [← h2]
  · injection h with h2
    rw [← h2]

theorem stmtsF_fix {l : Lex} {s : List Nat} (h : stmt l = (.stmt s, l)) :
    ∀ n, stmtsF n l = none := by
  intro n
  induction n with
  | zero => rfl
  | succ n ih =>
    have h2 : stmtsF (n + 1) l =
        (stmtsF n l).map (fun r => r.map (fun xs => s :: xs)) := by
      conv_lhs => rw [stmtsF]
      rw [h]
    rw [h2, ih]
    rfl

theorem isPrefixOf_append (xs ys : List Nat) :
    xs.isPrefixOf (xs ++ ys) = true := by
  induction xs with
  | nil => cases ys <;> rfl
  | cons a t ih => simp [List.isPrefixOf, ih]

theorem utf8Enc_ne_nil (c : Nat) : (utf8Enc c).length ≠ 0 := by
  unfold utf8Enc
  split_ifs <;> simp

theorem decodeRune_space (c : Nat) (rest : List Nat)
    (h : isSpace (c : Int) = true) :
    decodeRune (utf8Enc c ++ rest) = ((c : Int), (utf8Enc c).length) := by
  unfold isSpace at h
  simp only [decide_eq_true_eq] at h
  have h2 : c = 9 ∨ c = 10 ∨ c = 11 ∨ c = 12 ∨ c = 13 ∨ c = 32 ∨
      c = 0x85 ∨ c = 0xA0 ∨ c = 0x1680 ∨ (0x2000 ≤ c ∧ c ≤ 0x200A) ∨
      c = 0x2028 ∨ c = 0x2029 ∨ c = 0x202F ∨ c = 0x205F ∨ c = 0x3000 := by
    omega
  clear h
  rcases h2 with rfl | rfl | rfl | rfl | rfl | rfl | rfl | rfl | rfl |
    ⟨h1, h2⟩ | rfl | rfl | rfl | rfl | rfl
  · rfl
  · rfl
  · rfl
  · rfl
  · rfl
  · rfl
  · rfl
  · rfl
  · rfl
  · interval_cases c <;> rfl
  · rfl
  · rfl
  · rfl
  · rfl
  · rfl

theorem trimLeftF_spaceRunes :
    ∀ (rs : List Nat) (n : Nat),
    ((rs.map utf8Enc).flatten).length ≤ n →
    (∀ c ∈ rs, isSpace (c : Int) = true) →
    trimLeftF n ((rs.map utf8Enc).flatten) = [] := by
  intro rs
  induction rs with
  | nil =>
    intro n _ _
    cases n <;> rfl
  | cons c rs ih =>
    intro n hlen hall
    have hsp : isSpace ((c : Nat) : Int) = true := hall c (by simp)
    have hw : (utf8Enc c).length ≠ 0 := utf8Enc_ne_nil _
    rw [List.map_cons, List.flatten_cons] at hlen ⊢
    rw [List.length_append] at hlen
    have hdec := decodeRune_space c ((rs.map utf8Enc).flatten) hsp
    cases n with
    | zero => omega
    | succ m =>
      have hstep :
          trimLeftF (m + 1) (utf8Enc c ++ (rs.map utf8Enc).flatten) =
          trimLeftF m ((rs.map utf8Enc).flatten) := by
        simp only [trimLeftF]
        rw [hdec]
        simp [hw, hsp, List.drop_left]
      rw [hstep]
      exact ih m (by omega) (fun x hx => hall x (by simp [hx]))

theorem trimRightF_nil : ∀ n : Nat, trimRightF n [] = [] := by
  intro n
  cases n <;> rfl

/-- Claim C1 (code bug): at a depth-0 delimiter match the claim requires
the text from `statementStart` up to the start of the match to be
returned, with cursor and `statementStart` both advanced past the
delimiter.  On input `A;B` the code instead returns `A;` (the delimiter's
first byte included), sets `statementStart` to 1 — the position OF the
delimiter, not past it — and sets the cursor to 3, one byte beyond the end
of the delimiter.  This theorem evaluates the code at that failing
input. -/
theorem claim_C1 :
    stmt ⟨enc "A;B", 0, 0, 0, 0, [59]⟩ =
      (.stmt (enc "A;"), ⟨enc "A;B", 3, 1, 1, 0, [59]⟩) := rfl

/-- Claim C2 (code bug): the claim requires splitting `A;B` (segments `A`
and `B` joined by the default delimiter) to yield exactly the two
segments.  The code never terminates on this input: after the final
statement is produced, `statementStart` is not advanced, so the last
statement is returned again forever.  For every fuel bound the outer loop
is still running. -/
theorem claim_C2 : ∀ fuel : Nat, stmts (enc "A;B") fuel = none := by
  intro fuel
  have h0 : newLex (enc "A;B") = .ok ⟨enc "A;B", 0, 0, 0, 0, [59]⟩ := rfl
  have h1 : stmt ⟨enc "A;B", 0, 0, 0, 0, [59]⟩ =
      (.stmt (enc "A;"), ⟨enc "A;B", 3, 1, 1, 0, [59]⟩) := rfl
  have h2 : stmt ⟨enc "A;B", 3, 1, 1, 0, [59]⟩ =
      (.stmt (enc ";B"), ⟨enc "A;B", 3, 1, 1, 0, [59]⟩) := rfl
  unfold stmts
  rw [h0]
  show stmtsF fuel ⟨enc "A;B", 0, 0, 0, 0, [59]⟩ = none
  cases fuel with
  | zero => rfl
  | succ n =>
    have h3 : stmtsF (n + 1) ⟨enc "A;B", 0, 0, 0, 0, [59]⟩ =
        (stmtsF n ⟨enc "A;B", 3, 1, 1, 0, [59]⟩).map
          (fun r => r.map (fun xs => enc "A;" :: xs)) := by
      conv_lhs => rw [stmtsF]
      rw [h1]
    rw [h3, stmtsF_fix h2]
    rfl

/-- Claim C3 (code bug): the delimiter byte inside the quoted literal of
`SELECT 'a;b'` is indeed never treated as a boundary — the first call
returns the whole text with `a;b` unsplit — but the input does not yield
a single statement as the claim states: the scanner never signals
exhaustion (`statementStart` is not advanced at end of input), the same
final statement is returned by every further call, and the splitting loop
runs forever. -/
theorem claim_C3 :
    stmt ⟨exQuote, 0, 0, 0, 0, [59]⟩ =
      (.stmt exQuote, ⟨exQuote, 12, 1, 0, 0, [59]⟩) ∧
    stmt ⟨exQuote, 12, 1, 0, 0, [59]⟩ =
      (.stmt exQuote, ⟨exQuote, 12, 1, 0, 0, [59]⟩) ∧
    ∀ fuel : Nat, stmts exQuote fuel = none := by
  refine ⟨rfl, rfl, ?_⟩
  intro fuel
  have h0 : newLex exQuote = .ok ⟨exQuote, 0, 0, 0, 0, [59]⟩ := rfl
  have h1 : stmt ⟨exQuote, 0, 0, 0, 0, [59]⟩ =
      (.stmt exQuote, ⟨exQuote, 12, 1, 0, 0, [59]⟩) := rfl
  have h2 : stmt ⟨exQuote, 12, 1, 0, 0, [59]⟩ =
      (.stmt exQuote, ⟨exQuote, 12, 1, 0, 0, [59]⟩) := rfl
  unfold stmts
  rw [h0]
  show stmtsF fuel ⟨exQuote, 0, 0, 0, 0, [59]⟩ = none
  cases fuel with
  | zero => rfl
  | succ n =>
    have h3 : stmtsF (n + 1) ⟨exQuote, 0, 0, 0, 0, [59]⟩ =
        (stmtsF n ⟨exQuote, 12, 1, 0, 0, [59]⟩).map
          (fun r => r.map (fun xs => exQuote :: xs)) := by
      conv_lhs => rw [stmtsF]
      rw [h1]
    rw [h3, stmtsF_fix h2]
    rfl

/-- Claim C9 (confirmed): every empty or whitespace-only input — any
sequence of UTF-8 encoded code points each satisfying the program's
`unicode.IsSpace`, covering all Unicode white space, not just ASCII —
trims to the empty buffer, the first `stmt` call signals exhaustion
immediately, and `stmts` returns zero statements and no error. -/
theorem claim_C9 :
    ∀ (rs : List Nat) (fuel : Nat),
    (∀ c ∈ rs, isSpace (c : Int) = true) →
    stmts ((rs.map utf8Enc).flatten) (fuel + 1) = some (.ok []) := by
  intro rs fuel hall
  have htrim : trimSpace ((rs.map utf8Enc).flatten) = [] := by
    unfold trimSpace
    rw [trimLeftF_spaceRunes rs _ le_rfl hall, trimRightF_nil]
  have h0 : newLex ((rs.map utf8Enc).flatten) =
      .ok ⟨[], 0, 0, 0, 0, [59]⟩ := by
    unfold newLex
    rw [htrim]
    rfl
  unfold stmts
  rw [h0]
  show stmtsF (fuel + 1) ⟨[], 0, 0, 0, 0, [59]⟩ = some (.ok [])
  conv_lhs => rw [stmtsF]
  rfl

/-- Witness for C9 at a concrete whitespace-only input mixing ASCII
whitespace with U+00A0 (no-break space, bytes 0xC2 0xA0). -/
theorem claim_C9_witness : stmts [32, 0xC2, 0xA0, 10] 1 = some (.ok []) := by
  have h := claim_C9 [32, 0xA0, 10] 0 (by decide)
  exact h

/-- Claim C10 (confirmed): every state reachable from a freshly constructed
splitter by repeated `stmt` calls has non-negative parenthesis nesting
depth — `newLex` starts at depth 0 and one `stmt` call preserves
non-negativity (the closing-parenthesis case errors at depth 0 instead of
decrementing). -/
theorem claim_C10 :
    ∀ (input : List Nat) (l0 l : Lex),
    newLex input = .ok l0 → Relation.ReflTransGen steps l0 l →
    0 ≤ l.depth := by
  intro input l0 l h0 h
  have hbase : (0 : Int) ≤ l0.depth := by
    rw [newLex_depth h0]
  induction h with
  | refl => exact hbase
  | tail h1 h2 ih =>
    have h3 : (stmt _).2 = _ := h2
    rw [← h3]
    exact stmt_depth _ ih

/-- Witness for C10: the state after one `stmt` call on the splitter for
`A;B` has non-negative depth. -/
theorem claim_C10_witness :
    (0 : Int) ≤ (⟨enc "A;B", 3, 1, 1, 0, [59]⟩ : Lex).depth :=
  claim_C10 (enc "A;B") ⟨enc "A;B", 0, 0, 0, 0, [59]⟩
    ⟨enc "A;B", 3, 1, 1, 0, [59]⟩ rfl
    (Relation.ReflTransGen.single rfl)

/-- Counterexample to C4 as stated: in `a-;b` the only delimiter byte is
the `;` consumed as lookahead after the failed line-comment test, yet the
first call returns `a-;` — that lookahead DID begin a delimiter match.
Under the claim no boundary could fire and the whole input would be the
first statement. -/
theorem claim_C4_cex :
    (stmt ⟨enc "a-;b", 0, 0, 0, 0, [59]⟩).1 = .stmt (enc "a-;") ∧
    (stmt ⟨enc "a-;b", 0, 0, 0, 0, [59]⟩).1 ≠ .stmt (enc "a-;b") :=
  ⟨rfl, by decide⟩

/-- Claim C4 (amended): after a failed two-character comment test the
consumed lookahead code point is not re-tested as a parenthesis, quote or
comment opener — the iteration proceeds directly to the delimiter case —
but the delimiter case does examine it: the match is tested at the start
of that just-consumed lookahead code point and can fire there.  The two
concrete conjuncts show a lookahead `(` that does not open a parenthesis
and a lookahead quote that does not start a quote. -/
theorem claim_C4 :
    (∀ (l l1 l2 : Lex) (r2 : Int),
      next l = (45, l1) → next l1 = (r2, l2) → r2 ≠ 45 →
      stmtStep l = stmtTail l2) ∧
    (∀ (l l1 l2 : Lex) (r2 : Int),
      next l = (47, l1) → next l1 = (r2, l2) → r2 ≠ 42 →
      stmtStep l = stmtTail l2) ∧
    (stmt ⟨enc "-(", 0, 0, 0, 0, [59]⟩).1 = .stmt (enc "-(") ∧
    (stmt ⟨enc "-" ++ [39] ++ enc "x", 0, 0, 0, 0, [59]⟩).1 =
      .stmt (enc "-" ++ [39] ++ enc "x") := by
  refine ⟨?_, ?_, rfl, rfl⟩
  · intro l l1 l2 r2 h1 h2 h3
    have ha : (next l).1 = (45 : Int) := by rw [h1]
    have hb : (next l).2 = l1 := by rw [h1]
    have hc : (next l1).1 = r2 := by rw [h2]
    have hd : (next l1).2 = l2 := by rw [h2]
    unfold stmtStep
    rw [ha, hb, hc, hd]
    simp [eos, h3]
  · intro l l1 l2 r2 h1 h2 h3
    have ha : (next l).1 = (47 : Int) := by rw [h1]
    have hb : (next l).2 = l1 := by rw [h1]
    have hc : (next l1).1 = r2 := by rw [h2]
    have hd : (next l1).2 = l2 := by rw [h2]
    unfold stmtStep
    rw [ha, hb, hc, hd]
    simp [eos, h3]

/-- Witness for C4: in `a-;b`, after consuming `-` and the lookahead `;`,
the iteration lands in the delimiter case at the lookahead's position. -/
theorem claim_C4_witness :
    stmtStep ⟨enc "a-;b", 1, 1, 0, 0, [59]⟩ =
      stmtTail ⟨enc "a-;b", 3, 1, 0, 0, [59]⟩ :=
  claim_C4.1 ⟨enc "a-;b", 1, 1, 0, 0, [59]⟩ ⟨enc "a-;b", 2, 1, 0, 0, [59]⟩
    ⟨enc "a-;b", 3, 1, 0, 0, [59]⟩ 59 rfl rfl (by decide)

/-- Counterexample to C5 as stated: on `--(` no newline remains, the claim
says the scanner skips to end of input and the comment gets no structural
consideration, so the whole text would be returned as a statement; the
code instead leaves the cursor after `--`, reads the `(` structurally and
fails with the unclosed-parentheses error. -/
theorem claim_C5_cex :
    (stmt ⟨enc "--(", 0, 0, 0, 0, [59]⟩).1 = .err .unclosedParens ∧
    (stmt ⟨enc "--(", 0, 0, 0, 0, [59]⟩).1 ≠ .stmt (enc "--(") :=
  ⟨rfl, by decide⟩

/-- Claim C5 (amended): on `--`, when a newline exists at relative offset
`i` the cursor jumps just past it and depth, start and the rest of the
state are untouched; when NO newline remains the cursor is not advanced at
all and the remaining text is scanned normally, receiving full structural
consideration. -/
theorem claim_C5 :
    (∀ (l l1 l2 : Lex) (i : Nat),
      next l = (45, l1) → next l1 = (45, l2) →
      indexOfSub (l2.input.drop l2.pos) [10] = some i →
      stmtStep l = .inl { l2 with pos := l2.pos + i + 1 }) ∧
    (∀ (l l1 l2 : Lex),
      next l = (45, l1) → next l1 = (45, l2) →
      indexOfSub (l2.input.drop l2.pos) [10] = none →
      stmtStep l = .inl l2) := by
  constructor
  · intro l l1 l2 i h1 h2 h3
    have ha : (next l).1 = (45 : Int) := by rw [h1]
    have hb : (next l).2 = l1 := by rw [h1]
    have hc : (next l1).1 = (45 : Int) := by rw [h2]
    have hd : (next l1).2 = l2 := by rw [h2]
    unfold stmtStep
    rw [ha, hb, hc, hd, h3]
    simp [eos]
  · intro l l1 l2 h1 h2 h3
    have ha : (next l).1 = (45 : Int) := by rw [h1]
    have hb : (next l).2 = l1 := by rw [h1]
    have hc : (next l1).1 = (45 : Int) := by rw [h2]
    have hd : (next l1).2 = l2 := by rw [h2]
    unfold stmtStep
    rw [ha, hb, hc, hd, h3]
    simp [eos]

/-- Witness for C5: in `x--y\nz` with the scanner at the first `-`, the
newline at relative offset 1 is found and the cursor jumps to 5, just past
it. -/
theorem claim_C5_witness :
    stmtStep ⟨enc "x--y\nz", 1, 1, 0, 0, [59]⟩ =
      .inl ⟨enc "x--y\nz", 5, 1, 0, 0, [59]⟩ := by
  have h := claim_C5.1 ⟨enc "x--y\nz", 1, 1, 0, 0, [59]⟩
    ⟨enc "x--y\nz", 2, 1, 0, 0, [59]⟩ ⟨enc "x--y\nz", 3, 1, 0, 0, [59]⟩ 1
    rfl rfl rfl
  exact h

/-- Counterexample to C6 as stated: in the input
`//atlas:delimiter \n$$\nA$$B` the substring between the marker and the
first newline is empty, so the claim requires the empty delimiter and the
buffer `$$\nA$$B`; the code trims the whitespace after the marker first
and produces delimiter `$$` and buffer `A$$B`. -/
theorem claim_C6_cex :
    newLex (enc "//atlas:delimiter \n$$\nA$$B") =
      .ok ⟨enc "A$$B", 0, 0, 0, 0, enc "$$"⟩ ∧
    enc "$$" ≠ ([] : List Nat) ∧
    enc "A$$B" ≠ enc "$$\nA$$B" :=
  ⟨rfl, by decide, by decide⟩

/-- Claim C6 (amended): when the trimmed input begins with the marker, the
text after the marker is itself whitespace-trimmed; the delimiter is the
prefix of that trimmed text up to its first newline (so it can never
begin with whitespace), and the buffer is the text after that newline. -/
theorem claim_C6 :
    ∀ (input rest : List Nat) (i : Nat),
    trimSpace input = delimComment ++ rest →
    indexOfSub (trimSpace rest) [10] = some i →
    newLex input =
      .ok ⟨(trimSpace rest).drop (i + 1), 0, 0, 0, 0,
           (trimSpace rest).take i⟩ := by
  intro input rest i h1 h2
  unfold newLex
  rw [h1, if_pos (isPrefixOf_append delimComment rest), List.drop_left, h2]

/-- Witness for C6 at a concrete directive input. -/
theorem claim_C6_witness :
    newLex (enc "//atlas:delimiter $$\nX;Y") =
      .ok ⟨enc "X;Y", 0, 0, 0, 0, enc "$$"⟩ := by
  have h := claim_C6 (enc "//atlas:delimiter $$\nX;Y") (enc "$$\nX;Y") 2
    (by decide) (by decide)
  exact h

/-- Claim C7 (confirmed): whenever the scan reaches end of input with
nesting depth above zero, `stmt` fails with the unclosed-parentheses error
and returns no statement; in particular splitting `SELECT (1` fails that
way. -/
theorem claim_C7 :
    (∀ l : Lex, l.input.length ≤ l.pos → 0 < l.depth →
      stmt l = (.err .unclosedParens, l)) ∧
    (∀ fuel : Nat, stmts (enc "SELECT (1") (fuel + 1) =
      some (.error .unclosedParens)) := by
  constructor
  · intro l h1 h2
    have hn : next l = (eos, l) := by
      unfold next
      rw [if_pos h1]
    have hs : stmtStep l = .inr (.err .unclosedParens, l) := by
      unfold stmtStep
      rw [hn]
      simp [h2]
    unfold stmt
    rw [Nat.sub_eq_zero_of_le h1]
    show stmtF 1 l = (.err .unclosedParens, l)
    unfold stmtF
    rw [hs]
  · intro fuel
    have h0 : newLex (enc "SELECT (1") =
        .ok ⟨enc "SELECT (1", 0, 0, 0, 0, [59]⟩ := rfl
    have h1 : stmt ⟨enc "SELECT (1", 0, 0, 0, 0, [59]⟩ =
        (.err .unclosedParens, ⟨enc "SELECT (1", 9, 1, 0, 1, [59]⟩) := rfl
    unfold stmts
    rw [h0]
    show stmtsF (fuel + 1) ⟨enc "SELECT (1", 0, 0, 0, 0, [59]⟩ =
      some (.error .unclosedParens)
    conv_lhs => rw [stmtsF]
    rw [h1]

/-- Witness for C7 at a concrete exhausted state with open depth. -/
theorem claim_C7_witness :
    stmt ⟨[40], 1, 1, 0, 1, [59]⟩ =
      (.err .unclosedParens, ⟨[40], 1, 1, 0, 1, [59]⟩) :=
  claim_C7.1 ⟨[40], 1, 1, 0, 1, [59]⟩ (by decide) (by decide)

/-- Counterexample to C8 as stated: for `SELECT )1` the closing
parenthesis sits at byte offset 7, but the error produced carries 8, the
cursor position after the parenthesis was consumed — not the offset of the
parenthesis itself. -/
theorem claim_C8_cex :
    stmts (enc "SELECT )1") 1 =
      some (.error (.unexpectedCloseParen 8)) ∧
    (enc "SELECT )1").getD 7 0 = 41 ∧ (8 : Nat) ≠ 7 :=
  ⟨rfl, rfl, by decide⟩

/-- Claim C8 (amended): a closing parenthesis read at depth 0 aborts the
scan with an unexpected-closing-parenthesis error carrying the scanner
position immediately AFTER the parenthesis, that is its byte offset plus
its width. -/
theorem claim_C8 :
    ∀ (l : Lex) (w : Nat), l.pos < l.input.length →
    decodeRune (l.input.drop l.pos) = (41, w) → l.depth = 0 →
    stmtStep l = .inr (.err (.unexpectedCloseParen (l.pos + w)),
      { l with pos := l.pos + w, width := w }) := by
  intro l w h1 h2 h3
  have hn : next l = (41, { l with pos := l.pos + w, width := w }) := by
    unfold next
    rw [if_neg (by omega), h2]
  have ha : (next l).1 = (41 : Int) := by rw [hn]
  have hb : (next l).2 = { l with pos := l.pos + w, width := w } := by
    rw [hn]
  unfold stmtStep
  rw [ha, hb]
  simp [eos, h3]

/-- Witness for C8 on the one-byte input `)`. -/
theorem claim_C8_witness :
    stmtStep ⟨[41], 0, 0, 0, 0, [59]⟩ =
      .inr (.err (.unexpectedCloseParen 1), ⟨[41], 1, 1, 0, 0, [59]⟩) := by
  have h := claim_C8 ⟨[41], 0, 0, 0, 0, [59]⟩ 1 (by decide) (by decide) rfl
  exact h

end AtlasLex
